import Mathlib

/-!
Verification of the dialectic orchestration engine against its
natural-language specification.

Pure fragments of the source tree are embedded directly as Lean
functions.  Service functions whose implementation files are not part of
the source tree (only their tests and callers are) are modelled from the
specification text; each such definition carries a doc comment starting
with the words "Modelled from the spec".
-/

namespace Dialectic

/-! ## Google adapter token counting

Embedded from src/supabase/functions/_shared/ai_service/google_adapter.ts.
-/

/-- Outcome of one fetch call made by the Google adapter: an HTTP-ok JSON
body carrying a totalTokens field, a non-ok HTTP status with an error body,
or a thrown exception. -/
inductive FetchOutcome where
  | ok (totalTokens : Nat)
  | httpError (status : Nat) (body : String)
  | threw (msg : String)
  deriving Repr, DecidableEq

/-- Embeds GoogleAdapter._countTokens (google_adapter.ts lines 40-69): an
ok response yields its totalTokens; a non-ok response (lines 57-62) and a
thrown error (lines 65-68) both yield null (none) — the failure is logged
and swallowed, never propagated to the caller. -/
def countTokensResult : FetchOutcome → Option Nat
  | .ok n => some n
  | .httpError _ _ => none
  | .threw _ => none

/-- Shape of the token_usage object assembled by the adapter
(google_adapter.ts lines 229-235). -/
structure TokenUsage where
  prompt_tokens : Nat
  completion_tokens : Nat
  total_tokens : Nat
  deriving Repr, DecidableEq

/-- Shape of the AdapterResponsePayload returned by sendMessage
(google_adapter.ts lines 238-245). -/
structure AdapterResponsePayload where
  role : String
  content : String
  ai_provider_id : Option String
  system_prompt_id : Option String
  token_usage : Option TokenUsage
  deriving Repr, DecidableEq

/-- Embeds the completion-token computation of sendMessage
(google_adapter.ts lines 218-223): completion tokens are only counted when
the assistant message content is non-empty. -/
def completionCount (content : String) (cf : FetchOutcome) : Option Nat :=
  if content ≠ "" then countTokensResult cf else none

/-- Embeds the token-usage phase of GoogleAdapter.sendMessage
(google_adapter.ts lines 215-247), starting from the already-extracted
assistant message content: both token counts are obtained via
_countTokens, the token_usage object is null exactly when both counts came
back null, a missing count is reported as 0 otherwise (the JS expression
promptTokens || 0), and the assistant payload is returned regardless of
how the counting calls fared. -/
def sendMessageTokenPhase (content : String) (providerId : Option String)
    (promptId : String) (pf cf : FetchOutcome) : AdapterResponsePayload :=
  let promptTokens := countTokensResult pf
  let completionTokens := completionCount content cf
  let usage : Option TokenUsage :=
    if promptTokens ≠ none ∨ completionTokens ≠ none then
      some { prompt_tokens := promptTokens.getD 0,
             completion_tokens := completionTokens.getD 0,
             total_tokens := promptTokens.getD 0 + completionTokens.getD 0 }
    else none
  { role := "assistant"
    content := content
    ai_provider_id := providerId
    system_prompt_id := if promptId ≠ "__none__" then some promptId else none
    token_usage := usage }

/-! ## Dialectic store: generateContributions thunk

The store implementation file is not part of the source tree; only its
test suite (src/packages/store/src/dialecticStore.test.ts) is.  The thunk
is modelled from the specification text (fire-and-forget generation,
sections 4.3 and 5) and from the behaviour the test suite pins down.
-/

/-- Status of the store's contribution-generation request. -/
inductive GenStatus where
  | idle
  | generating
  | failed
  deriving Repr, DecidableEq

/-- An API error record as stored by the store. -/
structure ApiError where
  message : String
  code : String
  deriving Repr, DecidableEq

/-- The slice of the dialectic store state the generation thunk touches. -/
structure DialecticStoreState where
  contributionGenerationStatus : GenStatus
  generateContributionsError : Option ApiError
  generatingSessions : List (String × Bool)
  deriving Repr, DecidableEq

/-- Updates the per-session generating flag in the assoc-list map. -/
def setSessionFlag (m : List (String × Bool)) (sid : String) (b : Bool) :
    List (String × Bool) :=
  (sid, b) :: m.filter (fun p => p.1 ≠ sid)

/-- Reads the per-session generating flag, defaulting to false. -/
def getSessionFlag (m : List (String × Bool)) (sid : String) : Bool :=
  ((m.find? (fun p => p.1 == sid)).map Prod.snd).getD false

/-- How the generateContributions API request settles: a success
response, an error response, or a thrown (network) exception. -/
inductive ApiOutcome where
  | success (status : Nat)
  | errorResp (e : ApiError)
  | thrown (msg : String)
  deriving Repr, DecidableEq

/-- Modelled from the spec: the synchronous prefix of the store's
generateContributions thunk (the store implementation file is missing from
the source tree).  Per section 4.3 the session status flips to
"generating" synchronously, before any model call completes: the global
status is set to generating, the error is cleared, and the per-session
generating flag is set to true.  This step cannot observe the eventual
API outcome. -/
def generateContributionsBegin (s : DialecticStoreState) (sid : String) :
    DialecticStoreState :=
  { contributionGenerationStatus := .generating
    generateContributionsError := none
    generatingSessions := setSessionFlag s.generatingSessions sid true }

/-- Modelled from the spec: the settling step of the store's
generateContributions thunk (the store implementation file is missing from
the source tree).  On a success response the global status returns to idle
and the per-session flag stays true (completion is observed out of band);
on an error response the failure is recorded and the per-session flag is
reset; a thrown exception is recorded as an error with code NETWORK_ERROR
and the exception's message, and the per-session flag is reset. -/
def generateContributionsSettle (s : DialecticStoreState) (sid : String)
    (o : ApiOutcome) : DialecticStoreState :=
  match o with
  | .success _ =>
      { s with contributionGenerationStatus := .idle
               generateContributionsError := none }
  | .errorResp e =>
      { contributionGenerationStatus := .failed
        generateContributionsError := some e
        generatingSessions := setSessionFlag s.generatingSessions sid false }
  | .thrown m =>
      { contributionGenerationStatus := .failed
        generateContributionsError := some ⟨m, "NETWORK_ERROR"⟩
        generatingSessions := setSessionFlag s.generatingSessions sid false }

/-- Events observable while the generateContributions thunk runs, in
temporal order: store-state updates, outgoing API calls by name, and the
moment control returns to the caller. -/
inductive StoreEvent where
  | setState (s : DialecticStoreState)
  | apiCall (name : String)
  | returnToCaller
  deriving Repr, DecidableEq

/-- Modelled from the spec: the temporal trace of one run of the
generateContributions thunk (the store implementation file is missing from
the source tree).  The generating state is set synchronously, then the
single generateContributions API call is issued, then control returns to
the caller without blocking on completion; the settling update happens
after the caller already has control back, and no project-detail refresh
is awaited as part of the call. -/
def generateContributionsTrace (s : DialecticStoreState) (sid : String)
    (o : ApiOutcome) : List StoreEvent :=
  [ .setState (generateContributionsBegin s sid),
    .apiCall "generateContributions",
    .returnToCaller,
    .setState (generateContributionsSettle (generateContributionsBegin s sid) sid o) ]

/-- Final store state after one full run of the thunk. -/
def generateContributionsRun (s : DialecticStoreState) (sid : String)
    (o : ApiOutcome) : DialecticStoreState :=
  generateContributionsSettle (generateContributionsBegin s sid) sid o

/-! ## Process template resolver: nextStage

The resolver implementation file is not part of the source tree; the
function is modelled from the specification text (section 4.1).
-/

/-- A directed stage-transition edge of a process template. -/
structure StageTransition where
  process_template_id : Nat
  from_stage_id : Nat
  to_stage_id : Nat
  deriving Repr, DecidableEq

/-- Modelled from the spec: nextStage (the resolver implementation file is
missing from the source tree).  Section 4.1: look up the transition edge
of the process template whose from_stage_id matches the current stage; if
none exists the current stage is terminal (no stage is returned). -/
def nextStage (edges : List StageTransition) (tpl cur : Nat) : Option Nat :=
  (edges.find? (fun e => e.process_template_id == tpl && e.from_stage_id == cur)).map
    (fun e => e.to_stage_id)

/-! ## listAvailableDomainOverlays

The implementation file is not part of the source tree; only its test
suite (src/supabase/functions/dialectic-service/
listAvailableDomainOverlays.test.ts) is.  The query and mapping are
modelled from the specification text (section 6) and the behaviour the
test suite pins down.
-/

/-- One joined system-prompt row as seen through the inner join of the
overlay query. -/
structure SystemPromptRef where
  stage_association : String
  is_active : Bool
  deriving Repr, DecidableEq

/-- One row of the domain_specific_prompt_overlays table with its joined
system prompts. -/
structure DomainOverlayRow where
  id : String
  domain_id : String
  description : Option String
  overlay_values : Option String
  is_active : Bool
  system_prompts : List SystemPromptRef
  deriving Repr, DecidableEq

/-- The descriptor returned to the caller. -/
structure DomainOverlayDescriptor where
  id : String
  domainId : String
  description : Option String
  overlay_values : Option String
  stageAssociation : String
  deriving Repr, DecidableEq

/-- Whether an overlay row survives the query's filters: the overlay must
be active and its inner-joined system prompts must contain an active
prompt with the requested stage association. -/
def overlayMatches (stage : String) (r : DomainOverlayRow) : Bool :=
  r.is_active && r.system_prompts.any
    (fun sp => sp.is_active && sp.stage_association == stage)

/-- Maps a surviving overlay row to its returned descriptor. -/
def toOverlayDescriptor (stage : String) (r : DomainOverlayRow) :
    DomainOverlayDescriptor :=
  { id := r.id
    domainId := r.domain_id
    description := r.description
    overlay_values := r.overlay_values
    stageAssociation := stage }

/-- Modelled from the spec: listAvailableDomainOverlays (the
implementation file is missing from the source tree).  Section 6 gives the
contract listAvailableDomainOverlays(stageId) -> [descriptors]; per its
tests, an empty stage association short-circuits to the empty list, and
otherwise the rows surviving the active-overlay / active-system-prompt /
stage-association filters are mapped to descriptors. -/
def listAvailableDomainOverlays (stage : String)
    (rows : List DomainOverlayRow) : List DomainOverlayDescriptor :=
  if stage = "" then []
  else (rows.filter (overlayMatches stage)).map (toOverlayDescriptor stage)

/-! ## Contribution generation orchestrator: retry and partial failure

The orchestrator implementation file is not part of the source tree; it
is modelled from the specification text (sections 4.3, 5 and 7).
-/

/-- The fixed per-call retry bound observed in the orchestrator
(3 attempts, section 4.3). -/
def RETRY_LIMIT : Nat := 3

/-- Outcome of one attempt of one model call. -/
inductive ModelCallResult where
  | success (content : String)
  | transientFailure (err : String)
  deriving Repr, DecidableEq

/-- Whether a call attempt succeeded. -/
def ModelCallResult.isSuccess : ModelCallResult → Bool
  | .success _ => true
  | .transientFailure _ => false

/-- Modelled from the spec: the per-call bounded retry loop of the
orchestrator (the implementation file is missing from the source tree).
attempts k is the outcome of attempt number k (0-based); the second
argument is the number of attempts still allowed.  The first successful
attempt wins; when the allowance is exhausted the last attempt's error is
returned. -/
def runWithRetry (attempts : Nat → ModelCallResult) : Nat → Nat → ModelCallResult
  | _, 0 => .transientFailure "no attempt made"
  | k, fuel + 1 =>
    match attempts k, fuel with
    | .success c, _ => .success c
    | .transientFailure e, 0 => .transientFailure e
    | .transientFailure _, _ + 1 => runWithRetry attempts (k + 1) fuel

/-- One model call with the orchestrator's full retry allowance. -/
def callModelWithRetry (attempts : Nat → ModelCallResult) : ModelCallResult :=
  runWithRetry attempts 0 RETRY_LIMIT

/-- A contribution row persisted by the orchestrator for one model. -/
structure GenContributionRow where
  model_id : Nat
  content_path : Option String
  error : Option String
  edit_version : Nat
  is_latest_edit : Bool
  deriving Repr, DecidableEq

/-- One selected model: its identifier and the outcomes its attempts
would produce. -/
structure ModelSpec where
  model_id : Nat
  attempts : Nat → ModelCallResult

/-- Storage path for a model's successful main content. -/
def contentPathFor (modelId : Nat) : String :=
  "contributions/" ++ toString modelId ++ "/content.md"

/-- Modelled from the spec: how the orchestrator persists one model's
settled call (the implementation file is missing from the source tree).
Section 4.3: on success, main content is stored with edit_version 1 and
is_latest_edit true; on final failure the row carries the error and a
null content pointer instead of aborting the batch. -/
def persistModelResult (m : ModelSpec) : GenContributionRow :=
  match callModelWithRetry m.attempts with
  | .success _ =>
      { model_id := m.model_id
        content_path := some (contentPathFor m.model_id)
        error := none
        edit_version := 1
        is_latest_edit := true }
  | .transientFailure e =>
      { model_id := m.model_id
        content_path := none
        error := some e
        edit_version := 1
        is_latest_edit := true }

/-- Stage status after a generation batch settles. -/
inductive StageStatus where
  | complete
  | complete_with_errors
  deriving Repr, DecidableEq

/-- Result of one generation batch: the persisted per-model rows, the
session stage status, and whether a success envelope is returned. -/
structure BatchOutcome where
  rows : List GenContributionRow
  stageStatus : StageStatus
  accepted : Bool
  deriving Repr, DecidableEq

/-- Modelled from the spec: the orchestrator's fan-out over the selected
models (the implementation file is missing from the source tree).  Each
model is called independently with its own retry allowance and its row is
persisted whatever happened; the stage is complete_with_errors when any
model failed and complete otherwise; the batch always returns a success
envelope. -/
def generateBatch (models : List ModelSpec) : BatchOutcome :=
  let rows := models.map persistModelResult
  { rows := rows
    stageStatus :=
      if rows.any (fun r => r.error.isSome) then .complete_with_errors
      else .complete
    accepted := true }

/-! ## Prompt/seed assembler

The assembler implementation file is not part of the source tree; it is
modelled from the specification text (section 4.2).
-/

/-- One piece of a prompt template: literal text or a named placeholder. -/
inductive TemplatePart where
  | lit (s : String)
  | varRef (name : String)
  deriving Repr, DecidableEq

/-- One latest prior-stage contribution rendered into the seed. -/
structure PriorContribution where
  rootId : Nat
  modelName : String
  content : String
  deriving Repr, DecidableEq

/-- The world visible to one assembleSeed run: the stored inputs the
specification lists (base template, overlay values, prior-stage latest
contributions, consolidated feedback, static context variables) together
with ambient infrastructure state (a request counter and a clock) that a
pure assembler must not consult. -/
structure AssemblerWorld where
  baseTemplate : List TemplatePart
  overlayValues : List (String × String)
  priorLatest : List PriorContribution
  feedback : Option String
  staticVars : List (String × String)
  requestCounter : Nat
  clockNow : Nat
  deriving Repr, DecidableEq

/-- Placeholder resolution, section 4.2 steps (2) and (5): overlay values
take precedence, then static context variables, then an explicit default
placeholder — the assembler never fails on a missing optional variable. -/
def resolveVar (overlay staticVars : List (String × String)) (n : String) :
    String :=
  match overlay.find? (fun p => p.1 == n) with
  | some p => p.2
  | none =>
    match staticVars.find? (fun p => p.1 == n) with
    | some p => p.2
    | none => "N/A"

/-- Renders one template part. -/
def renderPart (overlay staticVars : List (String × String)) :
    TemplatePart → String
  | .lit s => s
  | .varRef n => resolveVar overlay staticVars n

/-- Section 4.2 step (3): each latest prior-stage contribution becomes a
labeled section. -/
def renderSection (c : PriorContribution) : String :=
  "### Contribution " ++ toString c.rootId ++ " (" ++ c.modelName ++ ")\n"
    ++ c.content ++ "\n"

/-- Modelled from the spec: assembleSeed (the assembler implementation
file is missing from the source tree).  Section 4.2, in order: render the
base template with overlay substitutions, append every latest prior-stage
contribution as a labeled section, append the consolidated feedback when
present, and resolve remaining static variables with a default
placeholder when absent.  The ambient requestCounter and clockNow fields
of the world are deliberately never consulted. -/
def assembleSeed (w : AssemblerWorld) : String :=
  String.join (w.baseTemplate.map (renderPart w.overlayValues w.staticVars))
    ++ String.join (w.priorLatest.map renderSection)
    ++ (match w.feedback with
        | some f => "\n## Collated feedback\n" ++ f
        | none => "")

/-! ## Contribution version manager

The version-manager implementation file is not part of the source tree;
it is modelled from the specification text (sections 3 and 4.4).
-/

/-- One stored contribution row of the append-only edit/version chain.
original_contribution_id is none on the AI-generated root and points at
the root on every human edit; editorId is none on AI rows. -/
structure ContributionRow where
  id : Nat
  original_contribution_id : Option Nat
  edit_version : Nat
  is_latest_edit : Bool
  contentRef : Nat
  editorId : Option Nat
  deriving Repr, DecidableEq

/-- The conceptual-contribution key of a row: the AI-generated root id it
belongs to (a root row is its own key). -/
def conceptKey (c : ContributionRow) : Nat :=
  c.original_contribution_id.getD c.id

/-- All stored rows of one conceptual contribution, in insertion order. -/
def chainRows (db : List ContributionRow) (r : Nat) : List ContributionRow :=
  db.filter (fun c => conceptKey c == r)

/-- An id freshly generated for a new row: distinct from every stored row
id and from every conceptual key. -/
def FreshId (db : List ContributionRow) (n : Nat) : Prop :=
  ∀ c ∈ db, c.id ≠ n ∧ conceptKey c ≠ n

/-- Modelled from the spec: persisting a new AI-generated contribution
(the orchestrator/version-manager implementation files are missing from
the source tree).  Sections 3 and 4.3: the original AI output is stored
with edit_version 1, is_latest_edit true, no root link and no editor. -/
def createAiContribution (db : List ContributionRow) (newId contentRef : Nat) :
    List ContributionRow :=
  db ++ [⟨newId, none, 1, true, contentRef, none⟩]

/-- Flips is_latest_edit to false on the row with the given id. -/
def flipLatestOff (db : List ContributionRow) (prevId : Nat) :
    List ContributionRow :=
  db.map (fun c =>
    if c.id = prevId then { c with is_latest_edit := false } else c)

/-- Modelled from the spec: applyEdit (the version-manager implementation
file is missing from the source tree).  Section 4.4: resolve the target
row, follow original_contribution_id to the conceptual root when the
target is itself an edit, resolve the current latest-edit row of that
conceptual contribution, insert a new row with edit_version one above the
previous latest, is_latest_edit true and original_contribution_id
pointing at the root, and flip the previous latest row's flag to false —
all as one transactional unit (none on any resolution failure). -/
def applyEdit (db : List ContributionRow)
    (targetId newId contentRef editorId : Nat) :
    Option (List ContributionRow) :=
  match db.find? (fun c => c.id == targetId) with
  | none => none
  | some target =>
    match db.find? (fun c => conceptKey c == conceptKey target && c.is_latest_edit) with
    | none => none
    | some prev =>
      some (flipLatestOff db prev.id ++
        [⟨newId, some (conceptKey target), prev.edit_version + 1, true,
          contentRef, some editorId⟩])

/-- The shape of a well-formed version chain whose first row carries
version v: versions count up one by one and only the final row carries
the latest flag. -/
inductive ChainOk : Nat → List ContributionRow → Prop where
  | single (v : Nat) (c : ContributionRow) (hv : c.edit_version = v)
      (hl : c.is_latest_edit = true) : ChainOk v [c]
  | cons (v : Nat) (c : ContributionRow) (l : List ContributionRow)
      (hv : c.edit_version = v) (hl : c.is_latest_edit = false)
      (ht : ChainOk (v + 1) l) : ChainOk v (c :: l)

/-- The version-chain invariant: row ids are unique, every conceptual
contribution's stored rows form a well-formed chain starting at version
1, and every version-1 row is an original AI output (no editor, no root
link). -/
def VersionInv (db : List ContributionRow) : Prop :=
  (db.map (fun c => c.id)).Nodup ∧
  (∀ r ∈ db.map conceptKey, ChainOk 1 (chainRows db r)) ∧
  (∀ c ∈ db, c.edit_version = 1 →
    c.editorId = none ∧ c.original_contribution_id = none)

/-- The properties the specification claims of every conceptual
contribution: exactly one stored row has is_latest_edit true, the
edit_version values (in insertion order) are exactly 1, 2, … — a strictly
increasing sequence starting at 1 — and edit_version 1 always denotes the
original AI output. -/
def ClaimedProps (db : List ContributionRow) : Prop :=
  (∀ r ∈ db.map conceptKey,
    (chainRows db r).countP (fun c => c.is_latest_edit) = 1 ∧
    (chainRows db r).map (fun c => c.edit_version) =
      List.range' 1 (chainRows db r).length ∧
    ((chainRows db r).map (fun c => c.edit_version)).Pairwise (· < ·) ∧
    ((chainRows db r).map (fun c => c.edit_version)).head? = some 1) ∧
  (∀ c ∈ db, c.edit_version = 1 →
    c.editorId = none ∧ c.original_contribution_id = none)

/-- The result of the concrete two-edit scenario: create one AI
contribution (id 1, version 1), then apply two sequential edits to it. -/
def editTwiceScenario : Option (List ContributionRow) :=
  (applyEdit (createAiContribution [] 1 100) 1 2 101 50).bind
    (fun db₁ => applyEdit db₁ 1 3 102 50)

/-- The stored rows after the two-edit scenario. -/
def editTwiceResult : List ContributionRow :=
  [⟨1, none, 1, false, 100, none⟩, ⟨2, some 1, 2, false, 101, some 50⟩,
   ⟨3, some 1, 3, true, 102, some 50⟩]

/-! ## Project cloning

The cloneProject implementation file is not part of the source tree; only
its test suite (src/supabase/functions/dialectic-service/
cloneProject.test.ts) is.  The deep copy is modelled from the
specification text (section 6 and the testable property on cloning).
-/

/-- One project resource to be deep-copied. -/
structure CloneResource where
  id : Nat
  fileName : String
  deriving Repr, DecidableEq

/-- One session to be deep-copied. -/
structure CloneSession where
  id : Nat
  deriving Repr, DecidableEq

/-- One contribution to be deep-copied, with its root/edit link. -/
structure CloneContribution where
  id : Nat
  sessionId : Nat
  original_model_contribution_id : Option Nat
  fileName : String
  deriving Repr, DecidableEq

/-- A project with its resources, sessions and contributions. -/
structure CloneProjectData where
  id : Nat
  name : String
  resources : List CloneResource
  sessions : List CloneSession
  contributions : List CloneContribution
  deriving Repr, DecidableEq

/-- Every id appearing in a project. -/
def allIds (p : CloneProjectData) : List Nat :=
  p.id :: (p.sessions.map (fun s => s.id) ++ p.resources.map (fun r => r.id)
    ++ p.contributions.map (fun c => c.id))

/-- Fresh id generated for a cloned session: ids at and above base are
outside the original project's id set. -/
def sessionRemap (p : CloneProjectData) (base sid : Nat) : Nat :=
  base + 1 + List.indexOf sid (p.sessions.map (fun s => s.id))

/-- Fresh id generated for a cloned resource. -/
def resourceRemap (p : CloneProjectData) (base rid : Nat) : Nat :=
  base + 1 + p.sessions.length +
    List.indexOf rid (p.resources.map (fun r => r.id))

/-- Fresh id generated for a cloned contribution. -/
def contribRemap (p : CloneProjectData) (base cid : Nat) : Nat :=
  base + 1 + p.sessions.length + p.resources.length +
    List.indexOf cid (p.contributions.map (fun c => c.id))

/-- Deterministic storage path of a cloned project-level resource. -/
def resourcePathFor (projectId : Nat) (fileName : String) : String :=
  toString projectId ++ "/" ++ fileName

/-- Deterministic storage path of a cloned contribution file. -/
def contributionPathFor (projectId sessionId : Nat) (fileName : String) :
    String :=
  toString projectId ++ "/sessions/" ++ toString sessionId ++ "/" ++ fileName

/-- One write against the blob store. -/
structure StorageWrite where
  path : String
  deriving Repr, DecidableEq

/-- Modelled from the spec: cloneProject (the implementation file is
missing from the source tree).  Section 6: deep-copies resources,
sessions and contributions under freshly generated ids (base is the
first id handed out by the generator and lies beyond every original id),
issuing one new storage write per resource and one per contribution at
paths freshly generated under the new ids, and remapping every
root/edit link to the cloned rows. -/
def cloneProject (p : CloneProjectData) (base : Nat) (newName : String) :
    CloneProjectData × List StorageWrite :=
  ({ id := base
     name := newName
     resources := p.resources.map (fun r =>
       { id := resourceRemap p base r.id, fileName := r.fileName })
     sessions := p.sessions.map (fun s => { id := sessionRemap p base s.id })
     contributions := p.contributions.map (fun c =>
       { id := contribRemap p base c.id
         sessionId := sessionRemap p base c.sessionId
         original_model_contribution_id :=
           c.original_model_contribution_id.map (contribRemap p base)
         fileName := c.fileName }) },
   p.resources.map (fun r => ⟨resourcePathFor base r.fileName⟩)
     ++ p.contributions.map (fun c =>
         ⟨contributionPathFor base (sessionRemap p base c.sessionId)
           c.fileName⟩))

/-- The root/edit link relation of a project's contribution graph. -/
def contribEdge (p : CloneProjectData) (a b : Nat) : Prop :=
  ∃ c ∈ p.contributions, c.id = a ∧ c.original_model_contribution_id = some b

/-! ## Verified properties -/

/-- C10: GoogleAdapter.sendMessage never fails because of token counting.
A countTokens call that returns a non-OK response or throws makes
_countTokens return null instead of propagating the error; sendMessage
still returns the assistant payload with the extracted content; the
token_usage field is null exactly when both counts are unavailable, and a
missing count is reported as 0 whenever the other count is available. -/
theorem google_token_counting_never_fails
    (content : String) (providerId : Option String) (promptId : String)
    (pf cf : FetchOutcome) :
    (∀ s b, countTokensResult (.httpError s b) = none) ∧
    (∀ m, countTokensResult (.threw m) = none) ∧
    (sendMessageTokenPhase content providerId promptId pf cf).content = content ∧
    (sendMessageTokenPhase content providerId promptId pf cf).role = "assistant" ∧
    ((sendMessageTokenPhase content providerId promptId pf cf).token_usage = none ↔
      countTokensResult pf = none ∧ completionCount content cf = none) ∧
    (∀ n, countTokensResult pf = some n → completionCount content cf = none →
      (sendMessageTokenPhase content providerId promptId pf cf).token_usage =
        some ⟨n, 0, n⟩) ∧
    (∀ n, countTokensResult pf = none → completionCount content cf = some n →
      (sendMessageTokenPhase content providerId promptId pf cf).token_usage =
        some ⟨0, n, n⟩) := by
  refine ⟨fun s b => rfl, fun m => rfl, rfl, rfl, ?_, ?_, ?_⟩
  · constructor
    · intro h
      by_contra hne
      rw [not_and_or] at hne
      have husage : ¬(countTokensResult pf = none ∧ completionCount content cf = none) := by
        rcases hne with h1 | h1 <;> exact fun hc => h1 (by simp [hc.1, hc.2])
      simp only [sendMessageTokenPhase] at h
      rw [if_pos] at h
      · exact Option.some_ne_none _ h
      · rcases Option.eq_none_or_eq_some (countTokensResult pf) with hp | ⟨n, hp⟩
        · rcases Option.eq_none_or_eq_some (completionCount content cf) with hc | ⟨m, hc⟩
          · exact absurd ⟨hp, hc⟩ husage
          · exact Or.inr (by simp [hc])
        · exact Or.inl (by simp [hp])
    · rintro ⟨hp, hc⟩
      simp [sendMessageTokenPhase, hp, hc]
  · intro n hp hc
    simp [sendMessageTokenPhase, hp, hc]
  · intro n hp hc
    simp [sendMessageTokenPhase, hp, hc]

/-- Witness for C10 at concrete inputs: the prompt count succeeds with 5
tokens while the completion count hits an HTTP 500, and the payload still
carries the content with the missing count reported as 0. -/
theorem google_token_counting_never_fails_witness :
    (sendMessageTokenPhase "hello" (some "prov-1") "sys-1" (.ok 5)
      (.httpError 500 "boom")).token_usage = some ⟨5, 0, 5⟩ :=
  (google_token_counting_never_fails "hello" (some "prov-1") "sys-1" (.ok 5)
    (.httpError 500 "boom")).2.2.2.2.2.1 5 (by decide) (by decide)

/-- C5: the session status is set to "generating" synchronously.  The
state installed immediately after the call has global status generating
and the per-session generating flag true; the trace prefix up to the
point where control returns to the caller is the same for every API
outcome (so the caller is not blocked on model completion), the
generating update strictly precedes the settling update, and no
project-detail refresh call appears anywhere in the trace. -/
theorem generate_contributions_generating_is_synchronous
    (s : DialecticStoreState) (sid : String) (o : ApiOutcome) :
    (generateContributionsBegin s sid).contributionGenerationStatus
        = .generating ∧
    getSessionFlag (generateContributionsBegin s sid).generatingSessions sid
        = true ∧
    (generateContributionsTrace s sid o).take 3 =
      [ .setState (generateContributionsBegin s sid),
        .apiCall "generateContributions",
        .returnToCaller ] ∧
    (∀ o₂ : ApiOutcome, (generateContributionsTrace s sid o).take 3 =
        (generateContributionsTrace s sid o₂).take 3) ∧
    StoreEvent.apiCall "getProjectDetails" ∉ generateContributionsTrace s sid o := by
  refine ⟨rfl, ?_, rfl, fun o₂ => rfl, ?_⟩
  · simp [generateContributionsBegin, setSessionFlag, getSessionFlag]
  · intro hmem
    simp only [generateContributionsTrace, List.mem_cons, List.mem_singleton] at hmem
    rcases hmem with h | h | h | h | h
    · cases h
    · exact absurd (StoreEvent.apiCall.inj h) (by decide)
    · cases h
    · cases h
    · cases h

/-- Witness for C5 at a concrete idle store and session id: the state
installed synchronously by the thunk is generating with the session
flagged. -/
theorem generate_contributions_generating_is_synchronous_witness :
    (generateContributionsBegin ⟨.idle, none, []⟩
        "session-1").contributionGenerationStatus = .generating ∧
    getSessionFlag (generateContributionsBegin ⟨.idle, none, []⟩
        "session-1").generatingSessions "session-1" = true :=
  ⟨(generate_contributions_generating_is_synchronous ⟨.idle, none, []⟩
      "session-1" (.success 200)).1,
   (generate_contributions_generating_is_synchronous ⟨.idle, none, []⟩
      "session-1" (.success 200)).2.1⟩

/-- C9: a failed generateContributions request is always recorded and the
session's generating flag is reset.  An API error response is stored as
the failure, and a thrown exception is stored as an error with code
NETWORK_ERROR and the exception's message; in both cases the global
status becomes failed and the per-session generating flag ends up false,
so no session stays marked as generating after a failed request. -/
theorem generate_contributions_failure_resets_generating
    (s : DialecticStoreState) (sid : String) (e : ApiError) (m : String) :
    (generateContributionsRun s sid (.errorResp e)).contributionGenerationStatus
        = .failed ∧
    (generateContributionsRun s sid (.errorResp e)).generateContributionsError
        = some e ∧
    getSessionFlag (generateContributionsRun s sid (.errorResp e)).generatingSessions sid
        = false ∧
    (generateContributionsRun s sid (.thrown m)).contributionGenerationStatus
        = .failed ∧
    (generateContributionsRun s sid (.thrown m)).generateContributionsError
        = some ⟨m, "NETWORK_ERROR"⟩ ∧
    getSessionFlag (generateContributionsRun s sid (.thrown m)).generatingSessions sid
        = false := by
  refine ⟨rfl, rfl, ?_, rfl, rfl, ?_⟩ <;>
    simp [generateContributionsRun, generateContributionsSettle,
      generateContributionsBegin, setSessionFlag, getSessionFlag]

/-- C6: nextStage is a deterministic function of the stage-transition edge
set: it returns no stage exactly when the current stage has no outgoing
transition edge in the template (the stage is terminal), and when the
matching edge is unique it returns that edge's target stage. -/
theorem nextStage_deterministic (edges : List StageTransition) (tpl cur : Nat) :
    (nextStage edges tpl cur = none ↔
      ∀ e ∈ edges, ¬(e.process_template_id = tpl ∧ e.from_stage_id = cur)) ∧
    (∀ e ∈ edges, e.process_template_id = tpl → e.from_stage_id = cur →
      (∀ e₂ ∈ edges, e₂.process_template_id = tpl → e₂.from_stage_id = cur → e₂ = e) →
      nextStage edges tpl cur = some e.to_stage_id) := by
  constructor
  · rw [nextStage, Option.map_eq_none', List.find?_eq_none]
    constructor
    · intro h e he hm
      exact absurd (h e he) (by simp [hm.1, hm.2])
    · intro h e he
      simpa using h e he
  · intro e he htpl hcur huniq
    rcases hfind : edges.find? (fun e => e.process_template_id == tpl && e.from_stage_id == cur)
        with _ | e₂
    · rw [List.find?_eq_none] at hfind
      exact absurd (by simp [htpl, hcur]) (hfind e he)
    · have hmem := List.mem_of_find?_eq_some hfind
      have hp := List.find?_some hfind
      simp only [Bool.and_eq_true, beq_iff_eq] at hp
      have : e₂ = e := huniq e₂ hmem hp.1 hp.2
      simp [nextStage, hfind, this]

/-- Witness for C6 at a concrete edge set: with the single edge 1 → 2 in
template 7, nextStage returns stage 2 from stage 1, and stage 2 itself is
terminal. -/
theorem nextStage_deterministic_witness :
    nextStage [⟨7, 1, 2⟩] 7 1 = some 2 ∧ nextStage [⟨7, 1, 2⟩] 7 2 = none := by
  constructor
  · exact (nextStage_deterministic [⟨7, 1, 2⟩] 7 1).2 ⟨7, 1, 2⟩ (by decide) rfl rfl
      (by intro e₂ h2 _ hc; simp only [List.mem_singleton] at h2; exact h2)
  · exact (nextStage_deterministic [⟨7, 1, 2⟩] 7 2).1.mpr (by decide)

/-- C8: for a non-empty stage association the result has exactly one
descriptor per active overlay joined to an active system prompt with that
stage association, and a descriptor is in the result exactly when it is
the field-for-field image (id, domainId, description, overlay values, and
the requested stage association) of such an overlay row; an empty stage
association yields the empty list, and so does a row set in which no
overlay matches. -/
theorem listAvailableDomainOverlays_spec (stage : String)
    (rows : List DomainOverlayRow) :
    listAvailableDomainOverlays "" rows = [] ∧
    ((∀ r ∈ rows, overlayMatches stage r = false) →
      listAvailableDomainOverlays stage rows = []) ∧
    (stage ≠ "" →
      (listAvailableDomainOverlays stage rows).length =
        rows.countP (overlayMatches stage)) ∧
    (∀ d, d ∈ listAvailableDomainOverlays stage rows ↔
      (stage ≠ "" ∧ ∃ r ∈ rows, overlayMatches stage r = true ∧
        d = toOverlayDescriptor stage r)) := by
  refine ⟨rfl, ?_, ?_, ?_⟩
  · intro h
    by_cases hne : stage = ""
    · simp [listAvailableDomainOverlays, hne]
    · simp only [listAvailableDomainOverlays, if_neg hne]
      rw [List.filter_eq_nil_iff.mpr, List.map_nil]
      intro r hr
      simp [h r hr]
  · intro hne
    simp [listAvailableDomainOverlays, hne, List.countP_eq_length_filter]
  · intro d
    by_cases hne : stage = ""
    · subst hne
      simp [listAvailableDomainOverlays]
    · simp only [listAvailableDomainOverlays, if_neg hne, List.mem_map,
        List.mem_filter]
      constructor
      · rintro ⟨r, ⟨hr, hm⟩, hd⟩
        exact ⟨hne, r, hr, hm, hd.symm⟩
      · rintro ⟨-, r, hr, hm, hd⟩
        exact ⟨r, ⟨hr, hm⟩, hd.symm⟩

/-- Witness for C8 at concrete rows mirroring the test fixture: of three
overlay rows, the two active ones joined to an active thesis prompt yield
exactly two descriptors. -/
theorem listAvailableDomainOverlays_spec_witness :
    (listAvailableDomainOverlays "thesis"
      [ ⟨"overlay-1", "tech_writing", some "Technical Writing Standards",
          some "detail", true, [⟨"thesis", true⟩]⟩,
        ⟨"overlay-2", "legal_drafting", some "Legal Document Templates",
          none, true, [⟨"thesis", true⟩]⟩,
        ⟨"overlay-3", "inactive_domain", none, none, false,
          [⟨"thesis", true⟩]⟩ ]).length = 2 := by
  rw [(listAvailableDomainOverlays_spec "thesis"
      [ ⟨"overlay-1", "tech_writing", some "Technical Writing Standards",
          some "detail", true, [⟨"thesis", true⟩]⟩,
        ⟨"overlay-2", "legal_drafting", some "Legal Document Templates",
          none, true, [⟨"thesis", true⟩]⟩,
        ⟨"overlay-3", "inactive_domain", none, none, false,
          [⟨"thesis", true⟩]⟩ ]).2.2.1 (by decide)]
  decide

theorem runWithRetry_success {attempts : Nat → ModelCallResult} {k c : Nat}
    {s : String} (h : attempts k = .success s) :
    runWithRetry attempts k (c + 1) = .success s := by
  cases c <;> simp [runWithRetry, h]

theorem runWithRetry_fail_last {attempts : Nat → ModelCallResult} {k : Nat}
    {e : String} (h : attempts k = .transientFailure e) :
    runWithRetry attempts k 1 = .transientFailure e := by
  simp [runWithRetry, h]

theorem runWithRetry_fail_step {attempts : Nat → ModelCallResult} {k f : Nat}
    {e : String} (h : attempts k = .transientFailure e) :
    runWithRetry attempts k (f + 2) = runWithRetry attempts (k + 1) (f + 1) := by
  simp [runWithRetry, h]

/-- If every allowed attempt fails, the retry loop reports a failure. -/
theorem runWithRetry_exhausted {attempts : Nat → ModelCallResult} :
    ∀ fuel k, (∀ i, i < fuel → (attempts (k + i)).isSuccess = false) →
    ∃ e, runWithRetry attempts k fuel = .transientFailure e := by
  intro fuel
  induction fuel with
  | zero => exact fun k _ => ⟨"no attempt made", rfl⟩
  | succ f ih =>
    intro k h
    have h0 : (attempts k).isSuccess = false := by simpa using h 0 (Nat.succ_pos f)
    rcases hatt : attempts k with c | e
    · rw [hatt] at h0; simp [ModelCallResult.isSuccess] at h0
    · cases f with
      | zero => exact ⟨e, runWithRetry_fail_last hatt⟩
      | succ f2 =>
        rw [runWithRetry_fail_step hatt]
        exact ih (k + 1) (fun i hi => by
          have := h (i + 1) (by omega)
          simpa [Nat.add_assoc, Nat.add_comm 1 i] using this)

/-- The first successful attempt within the allowance determines the
result of the retry loop. -/
theorem runWithRetry_first_success {attempts : Nat → ModelCallResult} {s : String} :
    ∀ j fuel k, j < fuel →
    (∀ i, i < j → (attempts (k + i)).isSuccess = false) →
    attempts (k + j) = .success s →
    runWithRetry attempts k fuel = .success s := by
  intro j
  induction j with
  | zero =>
    intro fuel k hlt _ hsucc
    rcases fuel with _ | f
    · omega
    · exact runWithRetry_success (by simpa using hsucc)
  | succ j ih =>
    intro fuel k hlt hfail hsucc
    have h0 : (attempts k).isSuccess = false := by
      simpa using hfail 0 (Nat.succ_pos j)
    rcases hatt : attempts k with c | e
    · rw [hatt] at h0; simp [ModelCallResult.isSuccess] at h0
    · rcases fuel with _ | _ | f
      · omega
      · omega
      · rw [runWithRetry_fail_step hatt]
        exact ih (f + 1) (k + 1) (by omega)
          (fun i hi => by
            have := hfail (i + 1) (by omega)
            simpa [Nat.add_assoc, Nat.add_comm 1 i] using this)
          (by
            have : k + 1 + j = k + (j + 1) := by omega
            rw [this]
            exact hsucc)

/-- C4: the retry bound is 3 attempts and a first success within the bound
yields a clean row; a model that exhausts all attempts gets a persisted
row with a non-null error and a null content pointer, every model's row is
persisted from its own attempts alone (so the other models' rows are
unaffected), the stage status becomes complete_with_errors, and the batch
still returns a success envelope. -/
theorem generation_partial_failure_tolerated (models : List ModelSpec)
    (m : ModelSpec) (hm : m ∈ models)
    (hfail : ∀ i, i < RETRY_LIMIT → (m.attempts i).isSuccess = false) :
    RETRY_LIMIT = 3 ∧
    (∀ m₂ : ModelSpec, ∀ j s, j < RETRY_LIMIT →
      (∀ i, i < j → (m₂.attempts i).isSuccess = false) →
      m₂.attempts j = .success s →
      (persistModelResult m₂).error = none ∧
      (persistModelResult m₂).content_path = some (contentPathFor m₂.model_id)) ∧
    (persistModelResult m).error.isSome = true ∧
    (persistModelResult m).content_path = none ∧
    (generateBatch models).rows = models.map persistModelResult ∧
    persistModelResult m ∈ (generateBatch models).rows ∧
    (generateBatch models).stageStatus = .complete_with_errors ∧
    (generateBatch models).accepted = true := by
  obtain ⟨e, he⟩ := runWithRetry_exhausted RETRY_LIMIT 0
    (fun i hi => by simpa using hfail i hi)
  have hrow : persistModelResult m =
      { model_id := m.model_id, content_path := none, error := some e,
        edit_version := 1, is_latest_edit := true } := by
    simp [persistModelResult, callModelWithRetry, he]
  refine ⟨rfl, ?_, ?_, ?_, rfl, ?_, ?_, rfl⟩
  · intro m₂ j s hj hf hs
    have hrun : callModelWithRetry m₂.attempts = .success s :=
      runWithRetry_first_success j RETRY_LIMIT 0 hj
        (fun i hi => by simpa using hf i hi) (by simpa using hs)
    simp [persistModelResult, hrun]
  · rw [hrow]; rfl
  · rw [hrow]
  · exact List.mem_map_of_mem persistModelResult hm
  · have hany : ((generateBatch models).rows.any (fun r => r.error.isSome)) = true := by
      apply List.any_eq_true.mpr
      exact ⟨persistModelResult m, List.mem_map_of_mem persistModelResult hm,
        by rw [hrow]; rfl⟩
    simp only [generateBatch] at hany ⊢
    rw [if_pos hany]

/-- Witness for C4 at a concrete batch of three models: model 2 fails all
three attempts while models 1 and 3 succeed, its row carries the error
with no content path, and the stage settles as complete_with_errors with
a success envelope. -/
theorem generation_partial_failure_tolerated_witness :
    (persistModelResult ⟨2, fun _ => .transientFailure "rate limited"⟩).error.isSome
        = true ∧
    (generateBatch
      [ ⟨1, fun _ => .success "ok one"⟩,
        ⟨2, fun _ => .transientFailure "rate limited"⟩,
        ⟨3, fun _ => .success "ok three"⟩ ]).stageStatus
        = .complete_with_errors := by
  have h := generation_partial_failure_tolerated
    [ ⟨1, fun _ => .success "ok one"⟩,
      ⟨2, fun _ => .transientFailure "rate limited"⟩,
      ⟨3, fun _ => .success "ok three"⟩ ]
    ⟨2, fun _ => .transientFailure "rate limited"⟩
    (by simp)
    (fun i _ => rfl)
  exact ⟨h.2.2.1, h.2.2.2.2.2.2.1⟩

/-- C7: assembleSeed is pure and idempotent.  Two runs against identical
stored inputs (same base template, overlay values, prior-stage latest
contributions, feedback and static variables) produce byte-identical
output even when the ambient infrastructure state (request counter,
clock) differs between the runs; in particular re-running on the very
same world reproduces the output exactly. -/
theorem assembleSeed_deterministic (w₁ w₂ : AssemblerWorld)
    (htemplate : w₁.baseTemplate = w₂.baseTemplate)
    (hoverlay : w₁.overlayValues = w₂.overlayValues)
    (hprior : w₁.priorLatest = w₂.priorLatest)
    (hfeedback : w₁.feedback = w₂.feedback)
    (hstatic : w₁.staticVars = w₂.staticVars) :
    assembleSeed w₁ = assembleSeed w₂ ∧ assembleSeed w₁ = assembleSeed w₁ := by
  refine ⟨?_, rfl⟩
  rw [assembleSeed, assembleSeed, htemplate, hoverlay, hprior, hfeedback,
    hstatic]

/-- Witness for C7: two worlds identical in all stored inputs but with
different request counters and clocks yield byte-identical seed text. -/
theorem assembleSeed_deterministic_witness :
    assembleSeed ⟨[.lit "Solve: ", .varRef "problem"], [("domain", "tech")],
      [⟨4, "claude", "thesis text"⟩], some "good", [("problem", "p1")], 0, 10⟩ =
    assembleSeed ⟨[.lit "Solve: ", .varRef "problem"], [("domain", "tech")],
      [⟨4, "claude", "thesis text"⟩], some "good", [("problem", "p1")], 99, 777⟩ :=
  (assembleSeed_deterministic _ _ rfl rfl rfl rfl rfl).1

theorem ChainOk.ne_nil {v : Nat} {l : List ContributionRow}
    (h : ChainOk v l) : l ≠ [] := by
  cases h <;> simp

theorem ChainOk.countP_latest {v : Nat} {l : List ContributionRow}
    (h : ChainOk v l) : l.countP (fun c => c.is_latest_edit) = 1 := by
  induction h with
  | single v c hv hl => simp [List.countP_cons, hl]
  | cons v c l hv hl ht ih => simp [List.countP_cons, hl, ih]

theorem ChainOk.map_version {v : Nat} {l : List ContributionRow}
    (h : ChainOk v l) :
    l.map (fun c => c.edit_version) = List.range' v l.length := by
  induction h with
  | single v c hv hl => simp [hv, List.range']
  | cons v c l hv hl ht ih => simp [hv, ih, List.range'_succ]

theorem ChainOk.head_version {v : Nat} {l : List ContributionRow}
    (h : ChainOk v l) :
    (l.map (fun c => c.edit_version)).head? = some v := by
  cases h with
  | single v c hv hl => simp [hv]
  | cons v c l hv hl ht => simp [hv]

theorem ChainOk.version_le {v : Nat} {l : List ContributionRow}
    (h : ChainOk v l) : ∀ c ∈ l, v ≤ c.edit_version := by
  induction h with
  | single v c hv hl =>
    intro d hd
    simp only [List.mem_singleton] at hd
    subst hd; omega
  | cons v c l hv hl ht ih =>
    intro d hd
    rcases List.mem_cons.mp hd with hd | hd
    · subst hd; omega
    · have := ih d hd; omega

/-- Extending a well-formed chain: flipping the latest flag off on the
unique latest row and appending a fresh latest row with the next version
yields a well-formed chain again. -/
theorem ChainOk.extend {v : Nat} {l : List ContributionRow}
    (h : ChainOk v l) (prev : ContributionRow)
    (hprev : prev ∈ l) (hlatest : prev.is_latest_edit = true)
    (hids : (l.map (fun c => c.id)).Nodup)
    (new : ContributionRow) (hnv : new.edit_version = prev.edit_version + 1)
    (hnl : new.is_latest_edit = true) :
    ChainOk v ((l.map (fun c =>
      if c.id = prev.id then { c with is_latest_edit := false } else c))
      ++ [new]) := by
  induction h with
  | single w c hv hl =>
    simp only [List.mem_singleton] at hprev
    subst hprev
    simp only [List.map_cons, List.map_nil, if_pos rfl, List.cons_append,
      List.nil_append]
    exact ChainOk.cons w _ [new] (by simpa using hv) rfl
      (ChainOk.single (w + 1) new (by omega) hnl)
  | cons w c l hv hl ht ih =>
    have hprev_tail : prev ∈ l := by
      rcases List.mem_cons.mp hprev with hp | hp
      · subst hp; rw [hlatest] at hl; cases hl
      · exact hp
    have hcid : c.id ≠ prev.id := by
      intro hid
      simp only [List.map_cons, List.nodup_cons] at hids
      exact hids.1 (hid ▸ List.mem_map_of_mem (fun c => c.id) hprev_tail)
    simp only [List.map_cons, if_neg hcid, List.cons_append]
    exact ChainOk.cons w c _ hv hl
      (ih hprev_tail (by simp only [List.map_cons, List.nodup_cons] at hids; exact hids.2))

theorem conceptKey_flip (c : ContributionRow) (p : Nat) :
    conceptKey (if c.id = p then { c with is_latest_edit := false } else c) =
      conceptKey c := by
  split <;> rfl

theorem id_flip (c : ContributionRow) (p : Nat) :
    (if c.id = p then { c with is_latest_edit := false } else c).id = c.id := by
  split <;> rfl

theorem version_flip (c : ContributionRow) (p : Nat) :
    (if c.id = p then { c with is_latest_edit := false } else c).edit_version =
      c.edit_version := by
  split <;> rfl

theorem editor_flip (c : ContributionRow) (p : Nat) :
    (if c.id = p then { c with is_latest_edit := false } else c).editorId =
      c.editorId := by
  split <;> rfl

theorem original_flip (c : ContributionRow) (p : Nat) :
    (if c.id = p then { c with is_latest_edit := false } else c).original_contribution_id =
      c.original_contribution_id := by
  split <;> rfl

theorem chainRows_append (db l₂ : List ContributionRow) (r : Nat) :
    chainRows (db ++ l₂) r = chainRows db r ++ chainRows l₂ r := by
  simp [chainRows]

theorem filter_key_map_comm (f : ContributionRow → ContributionRow)
    (hf : ∀ c, conceptKey (f c) = conceptKey c)
    (db : List ContributionRow) (r : Nat) :
    (db.map f).filter (fun c => conceptKey c == r) =
      (db.filter (fun c => conceptKey c == r)).map f := by
  induction db with
  | nil => rfl
  | cons c l ih =>
    simp only [List.map_cons, List.filter_cons, hf c]
    by_cases h : (conceptKey c == r) = true
    · simp [h, ih]
    · simp [h, ih]

theorem chainRows_flipLatestOff (db : List ContributionRow) (p r : Nat) :
    chainRows (flipLatestOff db p) r =
      (chainRows db r).map (fun c =>
        if c.id = p then { c with is_latest_edit := false } else c) := by
  simpa [chainRows, flipLatestOff] using
    filter_key_map_comm _ (fun c => conceptKey_flip c p) db r

theorem map_id_flipLatestOff (db : List ContributionRow) (p : Nat) :
    (flipLatestOff db p).map (fun c => c.id) = db.map (fun c => c.id) := by
  rw [flipLatestOff, List.map_map]
  exact List.map_congr_left (fun c _ => id_flip c p)

theorem map_key_flipLatestOff (db : List ContributionRow) (p : Nat) :
    (flipLatestOff db p).map conceptKey = db.map conceptKey := by
  rw [flipLatestOff, List.map_map]
  exact List.map_congr_left (fun c _ => conceptKey_flip c p)

theorem chain_ids_nodup (db : List ContributionRow) (r : Nat)
    (h : (db.map (fun c => c.id)).Nodup) :
    ((chainRows db r).map (fun c => c.id)).Nodup :=
  ((List.filter_sublist db).map (fun c => c.id)).nodup h

theorem eq_of_mem_id_eq {db : List ContributionRow}
    (h : (db.map (fun c => c.id)).Nodup) {c d : ContributionRow}
    (hc : c ∈ db) (hd : d ∈ db) (hid : c.id = d.id) : c = d :=
  List.inj_on_of_nodup_map h hc hd hid

/-- The empty store satisfies the version-chain invariant. -/
theorem versionInv_nil : VersionInv ([] : List ContributionRow) := by
  refine ⟨List.nodup_nil, ?_, ?_⟩
  · intro r hr; simp at hr
  · intro c hc; simp at hc

/-- Persisting a fresh AI-generated contribution preserves the
version-chain invariant. -/
theorem versionInv_create (db : List ContributionRow) (newId ref : Nat)
    (hinv : VersionInv db) (hfresh : FreshId db newId) :
    VersionInv (createAiContribution db newId ref) := by
  obtain ⟨hids, hchains, hai⟩ := hinv
  refine ⟨?_, ?_, ?_⟩
  · rw [createAiContribution, List.map_append]
    rw [List.nodup_append]
    exact ⟨hids, List.nodup_singleton _,
      fun a ha => by
        obtain ⟨c, hc, hcid⟩ := List.mem_map.mp ha
        simp only [List.map_cons, List.map_nil, List.mem_singleton]
        exact fun h => (hfresh c hc).1 (hcid.trans h)⟩
  · intro r hr
    rw [createAiContribution, List.map_append] at hr
    rw [createAiContribution, chainRows_append]
    have hnewkey : conceptKey (⟨newId, none, 1, true, ref, none⟩ : ContributionRow)
        = newId := rfl
    by_cases hreq : r = newId
    · subst hreq
      have hempty : chainRows db r = [] := by
        rw [chainRows, List.filter_eq_nil_iff]
        intro c hc
        simp only [beq_iff_eq]
        exact (hfresh c hc).2
      rw [hempty, List.nil_append]
      have : chainRows [⟨r, none, 1, true, ref, none⟩] r =
          [⟨r, none, 1, true, ref, none⟩] := by
        simp [chainRows, conceptKey]
      rw [this]
      exact ChainOk.single 1 _ rfl rfl
    · have hr₂ : r ∈ db.map conceptKey := by
        rcases List.mem_append.mp hr with h | h
        · exact h
        · simp only [List.map_cons, List.map_nil, List.mem_singleton, hnewkey] at h
          exact absurd h hreq
      have : chainRows [(⟨newId, none, 1, true, ref, none⟩ : ContributionRow)] r
          = [] := by
        simp [chainRows, conceptKey]
        exact fun h => hreq h.symm
      rw [this, List.append_nil]
      exact hchains r hr₂
  · intro c hc h1
    rcases List.mem_append.mp hc with h | h
    · exact hai c h h1
    · simp only [List.mem_singleton] at h
      subst h
      exact ⟨rfl, rfl⟩

/-- Applying an edit with a fresh row id preserves the version-chain
invariant. -/
theorem versionInv_applyEdit (db db₂ : List ContributionRow)
    (targetId newId ref editor : Nat)
    (hinv : VersionInv db) (hfresh : FreshId db newId)
    (happly : applyEdit db targetId newId ref editor = some db₂) :
    VersionInv db₂ := by
  obtain ⟨hids, hchains, hai⟩ := hinv
  rcases hfind : db.find? (fun c => c.id == targetId) with _ | target
  · rw [applyEdit, hfind] at happly; exact Option.noConfusion happly
  rcases hprev : db.find? (fun c =>
      conceptKey c == conceptKey target && c.is_latest_edit) with _ | prev
  · simp only [applyEdit, hfind, hprev] at happly
    exact Option.noConfusion happly
  simp only [applyEdit, hfind, hprev, Option.some.injEq] at happly
  have hdb₂ := happly.symm
  have hprev_mem : prev ∈ db := List.mem_of_find?_eq_some hprev
  have hprev_pred := List.find?_some hprev
  simp only [Bool.and_eq_true, beq_iff_eq] at hprev_pred
  obtain ⟨hprev_key, hprev_latest⟩ := hprev_pred
  set root := conceptKey target with hroot
  set newRow : ContributionRow :=
    ⟨newId, some root, prev.edit_version + 1, true, ref, some editor⟩ with hnew
  have hnewkey : conceptKey newRow = root := rfl
  have hroot_mem : root ∈ db.map conceptKey :=
    hprev_key ▸ List.mem_map_of_mem conceptKey hprev_mem
  have hprev_chain : prev ∈ chainRows db root :=
    List.mem_filter.mpr ⟨hprev_mem, by simp [hprev_key]⟩
  refine ⟨?_, ?_, ?_⟩
  · rw [hdb₂, List.map_append, map_id_flipLatestOff]
    rw [List.nodup_append]
    exact ⟨hids, List.nodup_singleton _,
      fun a ha => by
        obtain ⟨c, hc, hcid⟩ := List.mem_map.mp ha
        simp only [hnew, List.map_cons, List.map_nil, List.mem_singleton]
        exact fun h => (hfresh c hc).1 (hcid.trans h)⟩
  · intro r hr
    rw [hdb₂, List.map_append, map_key_flipLatestOff] at hr
    rw [hdb₂, chainRows_append, chainRows_flipLatestOff]
    by_cases hreq : r = root
    · have hnewchain : chainRows [newRow] r = [newRow] := by
        simp [chainRows, hnewkey, hreq]
      rw [hnewchain, hreq]
      exact ChainOk.extend (hchains root hroot_mem) prev hprev_chain
        hprev_latest (chain_ids_nodup db root hids) newRow rfl rfl
    · have hr₂ : r ∈ db.map conceptKey := by
        rcases List.mem_append.mp hr with h | h
        · exact h
        · simp only [List.map_cons, List.map_nil, List.mem_singleton,
            hnewkey] at h
          exact absurd h hreq
      have hnone : chainRows [newRow] r = [] := by
        simp [chainRows, hnewkey]
        exact fun h => hreq h.symm
      rw [hnone, List.append_nil]
      have hfix : ∀ c ∈ chainRows db r,
          (if c.id = prev.id then { c with is_latest_edit := false } else c)
            = c := by
        intro c hc
        rw [if_neg]
        intro hcid
        obtain ⟨hc_mem, hc_key⟩ := List.mem_filter.mp hc
        simp only [beq_iff_eq] at hc_key
        have hcp : c = prev := eq_of_mem_id_eq hids hc_mem hprev_mem hcid
        apply hreq
        rw [← hc_key, hcp, hprev_key]
      rw [List.map_congr_left hfix, List.map_id']
      exact hchains r hr₂
  · intro c hc h1
    rw [hdb₂] at hc
    rcases List.mem_append.mp hc with h | h
    · obtain ⟨c₀, hc₀, hc₀eq⟩ := List.mem_map.mp h
      subst hc₀eq
      rw [version_flip] at h1
      rw [editor_flip, original_flip]
      exact hai c₀ hc₀ h1
    · simp only [List.mem_singleton] at h
      subst h
      exfalso
      have hv := (hchains root hroot_mem).version_le prev hprev_chain
      simp only [hnew] at h1
      omega

/-- The version-chain invariant yields the claimed observable properties
of every conceptual contribution. -/
theorem claimedProps_of_versionInv (db : List ContributionRow)
    (hinv : VersionInv db) : ClaimedProps db := by
  refine ⟨?_, hinv.2.2⟩
  intro r hr
  have h := hinv.2.1 r hr
  refine ⟨h.countP_latest, h.map_version, ?_, ?_⟩
  · rw [h.map_version]
    exact List.pairwise_lt_range' _ _
  · have := h.head_version
    simpa using this

/-- C1: for every conceptual contribution (all rows sharing one
AI-generated root id), exactly one stored row has is_latest_edit true at
any time, the edit_version values form a strictly increasing sequence
starting at 1, and edit_version 1 always denotes the original AI output;
and this is preserved by both operations that create or edit
contributions (persisting a new AI contribution and applying a human
edit with freshly generated row ids). -/
theorem contribution_version_chains_sound (db : List ContributionRow)
    (hinv : VersionInv db) :
    ClaimedProps db ∧
    (∀ newId ref, FreshId db newId →
      VersionInv (createAiContribution db newId ref) ∧
      ClaimedProps (createAiContribution db newId ref)) ∧
    (∀ targetId newId ref editor db₂, FreshId db newId →
      applyEdit db targetId newId ref editor = some db₂ →
      VersionInv db₂ ∧ ClaimedProps db₂) := by
  refine ⟨claimedProps_of_versionInv db hinv, ?_, ?_⟩
  · intro newId ref hfresh
    have h := versionInv_create db newId ref hinv hfresh
    exact ⟨h, claimedProps_of_versionInv _ h⟩
  · intro targetId newId ref editor db₂ hfresh happly
    have h := versionInv_applyEdit db db₂ targetId newId ref editor hinv
      hfresh happly
    exact ⟨h, claimedProps_of_versionInv _ h⟩

/-- Witness for C1 starting from the empty store: creating AI
contribution 1 yields a store satisfying the invariant and the claimed
properties. -/
theorem contribution_version_chains_sound_witness :
    VersionInv (createAiContribution [] 1 100) ∧
    ClaimedProps (createAiContribution [] 1 100) :=
  (contribution_version_chains_sound [] versionInv_nil).2.1 1 100
    (by intro c hc; cases hc)

/-- C2: a successful applyEdit resolved some target row with the
requested id and the current latest row of its conceptual contribution
(via the concept key, which follows original_contribution_id when the
target is itself an edit), and produced the store in which that previous
latest row is flipped to false and a new row is appended with
edit_version one above the previous latest, is_latest_edit true and
original_contribution_id pointing at the AI-generated root; in
particular, after two sequential edits of contribution 1 (edit_version
1), the store is exactly three rows for that conceptual id of which only
the last is latest with edit_version 3, while the two prior rows carry
versions 1 and 2 with is_latest_edit false. -/
theorem applyEdit_behaviour (db db₂ : List ContributionRow)
    (targetId newId ref editor : Nat)
    (happly : applyEdit db targetId newId ref editor = some db₂) :
    (∃ target prev,
      target ∈ db ∧ target.id = targetId ∧
      prev ∈ db ∧ conceptKey prev = conceptKey target ∧
      prev.is_latest_edit = true ∧
      db₂ = flipLatestOff db prev.id ++
        [⟨newId, some (conceptKey target), prev.edit_version + 1, true, ref,
          some editor⟩]) ∧
    editTwiceScenario = some editTwiceResult ∧
    (chainRows editTwiceResult 1).countP (fun c => c.is_latest_edit) = 1 ∧
    (∀ c ∈ chainRows editTwiceResult 1,
      c.is_latest_edit = true → c.edit_version = 3) ∧
    (chainRows editTwiceResult 1).countP (fun c => !c.is_latest_edit) = 2 ∧
    (∀ c ∈ chainRows editTwiceResult 1,
      c.is_latest_edit = false → c.edit_version = 1 ∨ c.edit_version = 2) := by
  refine ⟨?_, by decide, by decide, by decide, by decide, by decide⟩
  rcases hfind : db.find? (fun c => c.id == targetId) with _ | target
  · rw [applyEdit, hfind] at happly; exact Option.noConfusion happly
  rcases hprev : db.find? (fun c =>
      conceptKey c == conceptKey target && c.is_latest_edit) with _ | prev
  · simp only [applyEdit, hfind, hprev] at happly
    exact Option.noConfusion happly
  simp only [applyEdit, hfind, hprev, Option.some.injEq] at happly
  have htarget_mem : target ∈ db := List.mem_of_find?_eq_some hfind
  have htarget_id := List.find?_some hfind
  simp only [beq_iff_eq] at htarget_id
  have hprev_mem : prev ∈ db := List.mem_of_find?_eq_some hprev
  have hprev_pred := List.find?_some hprev
  simp only [Bool.and_eq_true, beq_iff_eq] at hprev_pred
  exact ⟨target, prev, htarget_mem, htarget_id, hprev_mem, hprev_pred.1,
    hprev_pred.2, happly.symm⟩

/-- Witness for C2: the second edit of the scenario, applied to the
two-row store left by the first edit, produces exactly the scenario
result rows. -/
theorem applyEdit_behaviour_witness :
    ∃ target prev,
      target ∈ ([⟨1, none, 1, false, 100, none⟩,
        ⟨2, some 1, 2, true, 101, some 50⟩] : List ContributionRow) ∧
      target.id = 1 ∧
      prev ∈ ([⟨1, none, 1, false, 100, none⟩,
        ⟨2, some 1, 2, true, 101, some 50⟩] : List ContributionRow) ∧
      conceptKey prev = conceptKey target ∧
      prev.is_latest_edit = true ∧
      editTwiceResult = flipLatestOff [⟨1, none, 1, false, 100, none⟩,
        ⟨2, some 1, 2, true, 101, some 50⟩] prev.id ++
        [⟨3, some (conceptKey target), prev.edit_version + 1, true, 102,
          some 50⟩] :=
  (applyEdit_behaviour [⟨1, none, 1, false, 100, none⟩,
    ⟨2, some 1, 2, true, 101, some 50⟩] editTwiceResult 1 3 102 50
    (by decide)).1

/-- C3: cloning a project with K resources and M contributions performs
exactly K + M new storage writes, every new id lies outside the original
project's id set, the contribution-id remapping is injective, the cloned
contribution graph's root/edit links correspond exactly to the
original's under the remapping (graph isomorphism), and every storage
write targets a path freshly generated under the new ids. -/
theorem cloneProject_spec (p : CloneProjectData) (base : Nat)
    (newName : String) (hbase : ∀ i ∈ allIds p, i < base) :
    (cloneProject p base newName).2.length =
      p.resources.length + p.contributions.length ∧
    (∀ i ∈ allIds (cloneProject p base newName).1, i ∉ allIds p) ∧
    (∀ a ∈ p.contributions.map (fun c => c.id),
      ∀ b ∈ p.contributions.map (fun c => c.id),
      contribRemap p base a = contribRemap p base b → a = b) ∧
    (∀ a ∈ p.contributions.map (fun c => c.id),
      ∀ b ∈ p.contributions.map (fun c => c.id),
      (contribEdge p a b ↔ contribEdge (cloneProject p base newName).1
        (contribRemap p base a) (contribRemap p base b))) ∧
    (cloneProject p base newName).2 =
      p.resources.map (fun r => ⟨resourcePathFor base r.fileName⟩)
        ++ p.contributions.map (fun c =>
            ⟨contributionPathFor base (sessionRemap p base c.sessionId)
              c.fileName⟩) := by
  have hinj : ∀ a ∈ p.contributions.map (fun c => c.id),
      ∀ b ∈ p.contributions.map (fun c => c.id),
      contribRemap p base a = contribRemap p base b → a = b := by
    intro a ha b hb h
    rw [contribRemap, contribRemap] at h
    exact (List.indexOf_inj ha hb).mp (by omega)
  refine ⟨by simp [cloneProject], ?_, hinj, ?_, rfl⟩
  · intro i hi hmem
    have hlt := hbase i hmem
    have hge : base ≤ i := by
      simp only [cloneProject, allIds, List.mem_cons, List.mem_append,
        List.map_map, List.mem_map, Function.comp] at hi
      rcases hi with h | (⟨s, _, h⟩ | ⟨r, _, h⟩) | ⟨c, _, h⟩
      · omega
      · rw [← h, sessionRemap]; omega
      · rw [← h, resourceRemap]; omega
      · rw [← h, contribRemap]; omega
    omega
  · intro a ha b hb
    constructor
    · rintro ⟨c, hc, hca, hcb⟩
      refine ⟨{ id := contribRemap p base c.id,
                sessionId := sessionRemap p base c.sessionId,
                original_model_contribution_id :=
                  c.original_model_contribution_id.map (contribRemap p base),
                fileName := c.fileName }, ?_, by rw [hca], by rw [hcb]; rfl⟩
      simp only [cloneProject, List.mem_map]
      exact ⟨c, hc, rfl⟩
    · rintro ⟨c₂, hc₂, hc₂a, hc₂b⟩
      simp only [cloneProject, List.mem_map] at hc₂
      obtain ⟨c, hc, hceq⟩ := hc₂
      subst hceq
      have hca : c.id = a :=
        hinj c.id (List.mem_map_of_mem (fun c => c.id) hc) a ha hc₂a
      rcases horig : c.original_model_contribution_id with _ | b₀
      · rw [horig] at hc₂b; exact absurd hc₂b (by simp)
      · rw [horig] at hc₂b
        simp only [Option.map_some', Option.some.injEq] at hc₂b
        have hb₀mem : b₀ ∈ p.contributions.map (fun c => c.id) := by
          by_contra habs
          have hlen : List.indexOf b₀ (p.contributions.map (fun c => c.id)) =
              (p.contributions.map (fun c => c.id)).length :=
            List.indexOf_eq_length.mpr habs
          have hblt : List.indexOf b (p.contributions.map (fun c => c.id)) <
              (p.contributions.map (fun c => c.id)).length :=
            List.indexOf_lt_length.mpr hb
          rw [contribRemap, contribRemap] at hc₂b
          omega
        have : b₀ = b := hinj b₀ hb₀mem b hb hc₂b
        exact ⟨c, hc, hca, by rw [horig, this]⟩

/-- Witness for C3 at a concrete project with 1 resource, 1 session and 2
linked contributions, cloned with fresh ids starting at 10: exactly
1 + 2 storage writes are performed. -/
theorem cloneProject_spec_witness :
    (cloneProject ⟨1, "orig", [⟨2, "r.txt"⟩], [⟨3⟩],
      [⟨4, 3, none, "c1.md"⟩, ⟨5, 3, some 4, "c2.md"⟩]⟩ 10 "copy").2.length
      = 1 + 2 :=
  (cloneProject_spec ⟨1, "orig", [⟨2, "r.txt"⟩], [⟨3⟩],
    [⟨4, 3, none, "c1.md"⟩, ⟨5, 3, some 4, "c2.md"⟩]⟩ 10 "copy"
    (by decide)).1

end Dialectic
